import Mathlib

/-!
Verification of the filter core of the `rata-data-viewer` repository
(`src/filter.rs`, `src/data/source.rs`).

Rust strings are modelled as `List Char`; byte positions (as used by
`str::find` and slicing) are recovered through the UTF-8 size of each
character.  Rust's `Result` plus the possibility of a slicing panic is
modelled by a three-way result type.  Polars boolean masks are modelled as
`List (Option Bool)` (a validity-carrying boolean column): the chunked
kernels preserve validity, `&`/`|` use Kleene logic and `DataFrame::filter`
keeps exactly the rows whose mask slot is a valid `true`.
-/

/-- Number of bytes of the UTF-8 encoding of a character. -/
def utf8CharSize (c : Char) : Nat :=
  if c.toNat < 128 then 1
  else if c.toNat < 2048 then 2
  else if c.toNat < 65536 then 3
  else 4

/-- Byte length of a string (the `len` of a Rust `str`). -/
def byteLen (s : List Char) : Nat := (s.map utf8CharSize).sum

/-- Whitespace test used by Rust `str::trim` (`char::is_whitespace`),
restricted to the ASCII whitespace characters. -/
def isRustWs (c : Char) : Bool :=
  (c == ' ') || (c == Char.ofNat 9) || (c == Char.ofNat 10) ||
  (c == Char.ofNat 13) || (c == Char.ofNat 11) || (c == Char.ofNat 12)

/-- Model of Rust `str::trim_start`. -/
def rustTrimStart (s : List Char) : List Char := s.dropWhile isRustWs

/-- Model of Rust `str::trim_end`. -/
def rustTrimEnd (s : List Char) : List Char :=
  (s.reverse.dropWhile isRustWs).reverse

/-- Model of Rust `str::trim`. -/
def rustTrim (s : List Char) : List Char := rustTrimEnd (rustTrimStart s)

/-- Model of Rust `str::trim_matches(c)`: strip every leading and trailing
occurrence of the character `c`. -/
def trimMatchesChar (c : Char) (s : List Char) : List Char :=
  ((s.dropWhile (fun x => x == c)).reverse.dropWhile (fun x => x == c)).reverse

/-- Model of Rust `char::to_uppercase` (standard library, external to the
repository): full Unicode uppercasing, restricted to the characters that
appear in this development.  ASCII letters map to their ASCII uppercase;
U+0149 (latin small letter n preceded by apostrophe) has the one-to-many
special casing U+02BC U+004E; U+00E9 maps to U+00C9; every other character
is left fixed. -/
def rustUpperChar (c : Char) : List Char :=
  if c = Char.ofNat 329 then [Char.ofNat 700, 'N']
  else if c = Char.ofNat 233 then [Char.ofNat 201]
  else if 'a' ≤ c ∧ c ≤ 'z' then [Char.ofNat (c.toNat - 32)]
  else [c]

/-- Model of Rust `str::to_uppercase`. -/
def rustToUpper (s : List Char) : List Char := (s.map rustUpperChar).flatten

/-- First occurrence of `pat` in `s`, as a byte index — the model of Rust
`str::find` with a string pattern. -/
def findSub (s pat : List Char) : Option Nat :=
  if pat.isPrefixOf s then some 0
  else
    match s with
    | [] => none
    | c :: rest => (findSub rest pat).map (fun n => utf8CharSize c + n)

/-- Split `s` before and after the first occurrence of `pat` — the model of
`input.find(pat)` followed by slicing `input[..pos]` and
`input[pos + pat.len()..]` of the same string, where the returned position
is always a character boundary. -/
def splitFirst (s pat : List Char) : Option (List Char × List Char) :=
  if pat.isPrefixOf s then some ([], s.drop pat.length)
  else
    match s with
    | [] => none
    | c :: rest => (splitFirst rest pat).map (fun p => (c :: p.1, p.2))

/-- Split a string at a byte index, as Rust slicing `(&s[..b], &s[b..])`
does; `none` models the panic raised when `b` is not a character boundary
of `s` (or exceeds its length). -/
def byteSplit? (s : List Char) (b : Nat) : Option (List Char × List Char) :=
  if b = 0 then some ([], s)
  else
    match s with
    | [] => none
    | c :: rest =>
      if utf8CharSize c ≤ b then
        (byteSplit? rest (b - utf8CharSize c)).map (fun p => (c :: p.1, p.2))
      else none

/-- The comparison operators of `filter.rs` (`ComparisonOp`). -/
inductive ComparisonOp where
  | equal
  | notEqual
  | greaterThan
  | lessThan
  | greaterOrEqual
  | lessOrEqual
  | contains
  deriving DecidableEq, Repr

/-- The filter expression tree of `filter.rs` (`FilterExpr`). -/
inductive FilterExpr where
  | comparison (column : List Char) (op : ComparisonOp) (value : List Char)
  | and (left right : FilterExpr)
  | or (left right : FilterExpr)
  | not (inner : FilterExpr)
  deriving DecidableEq, Repr

/-- Parse errors raised by `FilterExpr::parse` (anyhow messages in the
source, one constructor per distinct `bail!`). -/
inductive ParseErr where
  | emptyExpression
  | invalidComparison
  deriving DecidableEq, Repr

/-- Outcome of `FilterExpr::parse`: a parsed expression, an error, or a
Rust panic (`crash`), which slicing at a non-boundary byte index raises. -/
inductive PRes where
  | ok (e : FilterExpr)
  | err (e : ParseErr)
  | crash
  deriving DecidableEq, Repr

/-- Propagation of errors and panics, as the Rust `?` operator does. -/
def PRes.bind (r : PRes) (f : FilterExpr → PRes) : PRes :=
  match r with
  | .ok e => f e
  | .err x => .err x
  | .crash => .crash

/-- The separator scanned for by `try_parse_or` (4 bytes). -/
def orKw : List Char := [' ', 'O', 'R', ' ']

/-- The separator scanned for by `try_parse_and` (5 bytes). -/
def andKw : List Char := [' ', 'A', 'N', 'D', ' ']

/-- The keyword prefix tested by `try_parse_not`. -/
def notKw : List Char := ['N', 'O', 'T', ' ']

/-- The operator table of `parse_comparison`, in the source's fixed order. -/
def operators : List (List Char × ComparisonOp) :=
  [(['>', '='], .greaterOrEqual),
   (['<', '='], .lessOrEqual),
   (['!', '='], .notEqual),
   (['='], .equal),
   (['>'], .greaterThan),
   (['<'], .lessThan),
   ([':'], .contains)]

/-- The operator scan of `parse_comparison`: try each operator token in
table order, returning the split at the first occurrence of the first
token that occurs anywhere in `input`. -/
def scanOps : List (List Char × ComparisonOp) → List Char →
    Option (List Char × ComparisonOp × List Char)
  | [], _ => none
  | (opStr, op) :: rest, input =>
    match splitFirst input opStr with
    | some (before, after) => some (before, op, after)
    | none => scanOps rest input

/-- Model of `FilterExpr::parse_comparison`.  In the source the value has
surrounding double quotes stripped first, then single quotes; here
`Char.ofNat 34` and `Char.ofNat 39` are those two quote characters. -/
def parse_comparison (input : List Char) : PRes :=
  match scanOps operators input with
  | some (before, op, after) =>
    let column := rustTrim before
    let value := trimMatchesChar (Char.ofNat 39)
      (trimMatchesChar (Char.ofNat 34) (rustTrim after))
    if column = [] ∨ value = [] then .err .invalidComparison
    else .ok (.comparison column op value)
  | none => .ok (.comparison ['*'] .contains input)

/-- One layer of `FilterExpr::parse` (with its helpers `try_parse_or`,
`try_parse_and`, `try_parse_not` inlined in source order), abstracted over
the recursive occurrences of `parse`: trim, reject the empty input, scan
the uppercased copy for the first `" OR "`, then the first `" AND "`, then
a leading `"NOT "`, and fall back to a single comparison.  The byte
positions found in the uppercased copy are applied to the original string
(`byteSplit?`), exactly as the source slices `input`. -/
def parseStep (rec : List Char → PRes) (input : List Char) : PRes :=
  let t := rustTrim input
  if t = [] then .err .emptyExpression
  else
    let u := rustToUpper t
    match findSub u orKw with
    | some p =>
      match byteSplit? t p, byteSplit? t (p + 4) with
      | some (l, _), some (_, r) =>
        (rec (rustTrim l)).bind fun le =>
          (rec (rustTrim r)).bind fun re => .ok (.or le re)
      | _, _ => .crash
    | none =>
      match findSub u andKw with
      | some p =>
        match byteSplit? t p, byteSplit? t (p + 5) with
        | some (l, _), some (_, r) =>
          (rec (rustTrim l)).bind fun le =>
            (rec (rustTrim r)).bind fun re => .ok (.and le re)
        | _, _ => .crash
      | none =>
        if notKw.isPrefixOf u then
          match byteSplit? t 4 with
          | some (_, rest) =>
            (rec (rustTrim rest)).bind fun ie => .ok (.not ie)
          | none => .crash
        else parse_comparison t

/-- Fuel-indexed model of `FilterExpr::parse`.  The recursion of the
source terminates because every recursive call is on a strictly shorter
string; here structural fuel plays that role and `parseF_irrel` below
shows any fuel above the string length gives the same result, so fuel
exhaustion (the `.crash` in the zero case) is never reached from
`parse`. -/
def parseF : Nat → List Char → PRes
  | 0, _ => .crash
  | fuel + 1, input => parseStep (parseF fuel) input

/-- Model of `FilterExpr::parse`. -/
def parse (input : List Char) : PRes := parseF (input.length + 1) input

/-- Characters of a string literal, for readable statements. -/
def cs (s : String) : List Char := s.data

/-- Model of a 64-bit float value: an exact rational, an infinity, or NaN.
The decimal-to-binary rounding of real `f64` is not modelled; no claim in
this development depends on rounding, only on which strings parse, on
NaN/infinity propagation and on order/equality of exactly-represented
values. -/
inductive F64 where
  | finite (q : ℚ)
  | inf
  | negInf
  | nan
  deriving DecidableEq, Repr

/-- IEEE `<` on the float model: NaN compares false with everything. -/
def F64.ltB : F64 → F64 → Bool
  | .nan, _ => false
  | _, .nan => false
  | .finite a, .finite b => decide (a < b)
  | .finite _, .inf => true
  | .finite _, .negInf => false
  | .inf, _ => false
  | .negInf, .negInf => false
  | .negInf, _ => true

/-- IEEE `==` on the float model: NaN is not equal to anything. -/
def F64.beqB : F64 → F64 → Bool
  | .finite a, .finite b => a == b
  | .inf, .inf => true
  | .negInf, .negInf => true
  | _, _ => false

/-- IEEE `<=` on the float model. -/
def F64.leB (a b : F64) : Bool := F64.ltB a b || F64.beqB a b

/-- Decimal digit value of a character, if any. -/
def digitVal? (c : Char) : Option Nat :=
  if '0' ≤ c ∧ c ≤ '9' then some (c.toNat - 48) else none

/-- Consume a leading digit run, returning its value, its digit count and
the rest of the string. -/
def takeDigits : List Char → Nat → Nat → Nat × Nat × List Char
  | [], acc, cnt => (acc, cnt, [])
  | c :: rest, acc, cnt =>
    match digitVal? c with
    | some d => takeDigits rest (acc * 10 + d) (cnt + 1)
    | none => (acc, cnt, c :: rest)

/-- ASCII lowercasing of one character. -/
def asciiLower (c : Char) : Char :=
  if 'A' ≤ c ∧ c ≤ 'Z' then Char.ofNat (c.toNat + 32) else c

/-- Parse an optional exponent suffix and finish a finite float.  The whole
rest of the string must be consumed, as Rust `f64::from_str` requires. -/
def parseExpPart (s : List Char) (m : ℚ) : Option F64 :=
  match s with
  | [] => some (.finite m)
  | c :: rest =>
    if c = 'e' ∨ c = 'E' then
      let (eneg, s2) : Bool × List Char :=
        match rest with
        | d :: r2 => if d = '+' then (false, r2)
                     else if d = '-' then (true, r2)
                     else (false, rest)
        | [] => (false, [])
      let (ev, ec, r) := takeDigits s2 0 0
      if ec = 0 ∨ r ≠ [] then none
      else some (.finite (m * (10 : ℚ) ^ (if eneg then -(ev : ℤ) else (ev : ℤ))))
    else none

/-- Model of Rust `str::parse::<f64>()` (standard library, external to the
repository): optional sign; `inf`, `infinity` or `nan` case-insensitively;
or a decimal significand (digits, digits `.` digits?, or `.` digits) with
an optional `e`/`E` exponent.  The whole string must match. -/
def parseF64 (s : List Char) : Option F64 :=
  let (neg, s1) : Bool × List Char :=
    match s with
    | c :: rest => if c = '+' then (false, rest)
                   else if c = '-' then (true, rest)
                   else (false, s)
    | [] => (false, [])
  let lower := s1.map asciiLower
  if lower = cs "inf" ∨ lower = cs "infinity" then
    some (if neg then .negInf else .inf)
  else if lower = cs "nan" then some .nan
  else
    let (ip, ic, r1) := takeDigits s1 0 0
    match r1 with
    | '.' :: r2 =>
      let (fp, fc, r3) := takeDigits r2 0 0
      if ic = 0 ∧ fc = 0 then none
      else
        let mant : ℚ := (ip : ℚ) + (fp : ℚ) / (10 : ℚ) ^ fc
        parseExpPart r3 (if neg then -mant else mant)
    | _ =>
      if ic = 0 then none
      else parseExpPart r1 (if neg then -(ip : ℚ) else (ip : ℚ))

/-- A typed polars column with per-slot validity, restricted to a
representative subset of dtypes: the four numeric dtypes the source's
accessors cover (`i64`, `i32`, `f64`, `f32`), strings, plus `u32`
(polars `UInt32`, a numeric dtype the accessors do not cover) and a
Boolean dtype.  `i32` and `u32` slots are modelled as `Int`/`Nat` (their
machine ranges play no role in the claims); `f32` slots are modelled as
`F64`, making the source's `v as f64` widening the identity. -/
inductive Column where
  | str (vals : List (Option (List Char)))
  | i64 (vals : List (Option Int))
  | i32 (vals : List (Option Int))
  | f64 (vals : List (Option F64))
  | f32 (vals : List (Option F64))
  | u32 (vals : List (Option Nat))
  | boolc (vals : List (Option Bool))
  deriving DecidableEq, Repr

instance : Inhabited Column := ⟨Column.str []⟩

/-- Model of `Column::str()`: succeeds only on the string dtype. -/
def Column.asStr : Column → Option (List (Option (List Char)))
  | .str vs => some vs
  | _ => none

/-- Model of `Column::i64()`. -/
def Column.asI64 : Column → Option (List (Option Int))
  | .i64 vs => some vs
  | _ => none

/-- Model of `Column::i32()`. -/
def Column.asI32 : Column → Option (List (Option Int))
  | .i32 vs => some vs
  | _ => none

/-- Model of `Column::f64()`. -/
def Column.asF64 : Column → Option (List (Option F64))
  | .f64 vs => some vs
  | _ => none

/-- Model of `Column::f32()`. -/
def Column.asF32 : Column → Option (List (Option F64))
  | .f32 vs => some vs
  | _ => none

/-- Substring test: `containsSub v pat` holds iff `pat` occurs contiguously
in `v` — the model of polars `contains_literal` on one valid slot (byte
search in UTF-8 agrees with character search, since UTF-8 is
self-synchronizing). -/
def containsSub (v pat : List Char) : Bool :=
  if pat.isPrefixOf v then true
  else
    match v with
    | [] => false
    | _ :: rest => containsSub rest pat

/-- A polars boolean mask: one optional boolean per row (the slot is `none`
where the underlying data was null and the kernel preserved validity). -/
abbrev Mask := List (Option Bool)

deriving instance DecidableEq for Except

/-- A polars data frame: named columns in order. -/
abbrev DataFrame := List (List Char × Column)

/-- Model of `DataFrame::column(name)`: leftmost column of that name. -/
def dfColumn (df : DataFrame) (name : List Char) : Option Column :=
  (df.find? (fun p => p.1 == name)).map Prod.snd

/-- Kleene OR on optional booleans, the per-slot behaviour of polars
`BitOr` for `BooleanChunked` (external to the repository). -/
def korb : Option Bool → Option Bool → Option Bool
  | some true, _ => some true
  | _, some true => some true
  | some false, some false => some false
  | _, _ => none

/-- Kleene AND on optional booleans, the per-slot behaviour of polars
`BitAnd` for `BooleanChunked` (external to the repository). -/
def kandb : Option Bool → Option Bool → Option Bool
  | some false, _ => some false
  | _, some false => some false
  | some true, some true => some true
  | _, _ => none

/-- Elementwise Kleene OR of two masks. -/
def korM (a b : Mask) : Mask := List.zipWith korb a b

/-- Elementwise Kleene AND of two masks. -/
def kandM (a b : Mask) : Mask := List.zipWith kandb a b

/-- Mask negation: polars `Not` negates the values and preserves validity
(a null slot stays null). -/
def maskNot (a : Mask) : Mask := a.map (Option.map Bool.not)

/-- Evaluation errors of `filter.rs`, one constructor per distinct failure
message (the two value-parse failures of `Equal`/`NotEqual` share one). -/
inductive EvalErr where
  | columnNotFound
  | notStringForContains
  | cannotParseValue
  | columnNotNumeric
  | columnNotNumericOrString
  | noSearchableColumns
  deriving DecidableEq, Repr

/-- Model of `FilterExpr::numeric_comparison`: try the `i64`, `i32`, `f64`,
`f32` accessors in source order, widen each valid slot to float and apply
`op`, keeping null slots null (`opt_val.map` in the source); any other
dtype fails with the `Column is not numeric type` error. -/
def numeric_comparison (col : Column) (value : F64) (op : F64 → F64 → Bool) :
    Except EvalErr Mask :=
  match col.asI64 with
  | some vs => .ok (vs.map (Option.map (fun v : ℤ => op (.finite (v : ℚ)) value)))
  | none =>
    match col.asI32 with
    | some vs => .ok (vs.map (Option.map (fun v : ℤ => op (.finite (v : ℚ)) value)))
    | none =>
      match col.asF64 with
      | some vs => .ok (vs.map (Option.map (fun v => op v value)))
      | none =>
        match col.asF32 with
        | some vs => .ok (vs.map (Option.map (fun v => op v value)))
        | none => .error .columnNotNumeric

/-- Model of `FilterExpr::string_comparison`: apply `op` to each valid
slot, keeping null slots null. -/
def string_comparison (vs : List (Option (List Char))) (value : List Char)
    (op : List Char → List Char → Bool) : Except EvalErr Mask :=
  .ok (vs.map (Option.map (fun v => op v value)))

/-- Lexicographic (code-point) order on strings, the model of `<` on Rust
`&str` (byte order on UTF-8 agrees with code-point order). -/
def strLt : List Char → List Char → Bool
  | [], [] => false
  | [], _ :: _ => true
  | _ :: _, [] => false
  | a :: as, b :: bs =>
    if a < b then true else if b < a then false else strLt as bs

/-- Model of `FilterExpr::evaluate_comparison`.  String scalar comparisons
(`equal`, `not_equal`, `contains_literal` on a `StringChunked`) follow the
polars kernels, which preserve validity: a null slot yields a null mask
slot. -/
def evaluate_comparison (df : DataFrame) (column : List Char)
    (op : ComparisonOp) (value : List Char) : Except EvalErr Mask :=
  match dfColumn df column with
  | none => .error .columnNotFound
  | some col =>
    match op with
    | .contains =>
      match col.asStr with
      | some vs => .ok (vs.map (Option.map (fun v => containsSub v value)))
      | none => .error .notStringForContains
    | .equal =>
      match col.asStr with
      | some vs => .ok (vs.map (Option.map (fun v => v == value)))
      | none =>
        match parseF64 value with
        | some q => numeric_comparison col q (fun a b => F64.beqB a b)
        | none => .error .cannotParseValue
    | .notEqual =>
      match col.asStr with
      | some vs => .ok (vs.map (Option.map (fun v => !(v == value))))
      | none =>
        match parseF64 value with
        | some q => numeric_comparison col q (fun a b => !(F64.beqB a b))
        | none => .error .cannotParseValue
    | .greaterThan =>
      match parseF64 value with
      | some q => numeric_comparison col q (fun a b => F64.ltB b a)
      | none =>
        match col.asStr with
        | some vs => string_comparison vs value (fun a b => strLt b a)
        | none => .error .columnNotNumericOrString
    | .lessThan =>
      match parseF64 value with
      | some q => numeric_comparison col q (fun a b => F64.ltB a b)
      | none =>
        match col.asStr with
        | some vs => string_comparison vs value (fun a b => strLt a b)
        | none => .error .columnNotNumericOrString
    | .greaterOrEqual =>
      match parseF64 value with
      | some q => numeric_comparison col q (fun a b => F64.leB b a)
      | none =>
        match col.asStr with
        | some vs => string_comparison vs value (fun a b => !(strLt a b))
        | none => .error .columnNotNumericOrString
    | .lessOrEqual =>
      match parseF64 value with
      | some q => numeric_comparison col q (fun a b => F64.leB a b)
      | none =>
        match col.asStr with
        | some vs => string_comparison vs value (fun a b => !(strLt b a))
        | none => .error .columnNotNumericOrString

/-- The column fold inside `FilterExpr::evaluate_global_search`: walk the
columns in order, building the substring mask of each string column and
OR-ing it into the accumulator; non-string columns are skipped. -/
def globalAcc (pattern : List Char) :
    List (List Char × Column) → Option Mask → Option Mask
  | [], acc => acc
  | (_, c) :: rest, acc =>
    match c.asStr with
    | some vs =>
      let contains := vs.map (Option.map (fun v => containsSub v pattern))
      globalAcc pattern rest
        (match acc with
         | none => some contains
         | some m => some (korM m contains))
    | none => globalAcc pattern rest acc

/-- Model of `FilterExpr::evaluate_global_search`. -/
def evaluate_global_search (df : DataFrame) (pattern : List Char) :
    Except EvalErr Mask :=
  match globalAcc pattern df none with
  | some m => .ok m
  | none => .error .noSearchableColumns

/-- Model of `FilterExpr::evaluate`. -/
def evaluate : FilterExpr → DataFrame → Except EvalErr Mask
  | .comparison column op value, df =>
    if column = ['*'] then evaluate_global_search df value
    else evaluate_comparison df column op value
  | .and l r, df => do
    let ml ← evaluate l df
    let mr ← evaluate r df
    pure (kandM ml mr)
  | .or l r, df => do
    let ml ← evaluate l df
    let mr ← evaluate r df
    pure (korM ml mr)
  | .not e, df => do
    let m ← evaluate e df
    pure (maskNot m)

/-- Model of `DataFrame::filter` applied to one column's slots (external
to the repository): keep exactly the slots whose mask entry is a valid
`true`, in order; a `false` or null mask entry drops the row. -/
def maskFilter {α : Type} (m : Mask) (vals : List α) : List α :=
  (m.zip vals).filterMap (fun p => if p.1 = some true then some p.2 else none)

/-- Apply a mask to one typed column. -/
def Column.filterBy (c : Column) (m : Mask) : Column :=
  match c with
  | .str vs => .str (maskFilter m vs)
  | .i64 vs => .i64 (maskFilter m vs)
  | .i32 vs => .i32 (maskFilter m vs)
  | .f64 vs => .f64 (maskFilter m vs)
  | .f32 vs => .f32 (maskFilter m vs)
  | .u32 vs => .u32 (maskFilter m vs)
  | .boolc vs => .boolc (maskFilter m vs)

/-- Model of polars `DataFrame::filter`: apply the mask to every column. -/
def dfFilterRows (df : DataFrame) (m : Mask) : DataFrame :=
  df.map (fun p => (p.1, p.2.filterBy m))

/-- Model of `FilterExpr::apply`: evaluate to a mask, then filter. -/
def applyFilter (e : FilterExpr) (df : DataFrame) : Except EvalErr DataFrame :=
  (evaluate e df).map (fun m => dfFilterRows df m)

/-- Outcome of the facade `DataSource::filter`: a data frame, a parse
error, an evaluation error, or a panic. -/
inductive FRes where
  | ok (df : DataFrame)
  | perr (e : ParseErr)
  | eerr (e : EvalErr)
  | crash
  deriving DecidableEq, Repr

/-- Model of the facade `DataSource::filter`: an empty pattern (the
untrimmed `pattern.is_empty()` test of the source) returns the frame
unchanged; otherwise parse and apply. -/
def dsFilter (df : DataFrame) (pattern : List Char) : FRes :=
  if pattern = [] then .ok df
  else
    match parse pattern with
    | .ok e =>
      match applyFilter e df with
      | .ok d => .ok d
      | .error er => .eerr er
    | .err pe => .perr pe
    | .crash => .crash



/-! Basic facts about byte lengths, byte splitting and trimming, used to
justify that the parser's recursion always descends to strictly shorter
strings. -/

theorem utf8CharSize_pos (c : Char) : 0 < utf8CharSize c := by
  unfold utf8CharSize
  split
  · omega
  · split
    · omega
    · split <;> omega

theorem byteLen_cons (c : Char) (s : List Char) :
    byteLen (c :: s) = utf8CharSize c + byteLen s := by
  simp [byteLen]

theorem byteLen_append (a b : List Char) :
    byteLen (a ++ b) = byteLen a + byteLen b := by
  simp [byteLen]

theorem byteLen_eq_zero {s : List Char} : byteLen s = 0 ↔ s = [] := by
  cases s with
  | nil => simp [byteLen]
  | cons c rest =>
    have := utf8CharSize_pos c
    simp [byteLen_cons]
    omega

theorem byteSplit?_some : ∀ (s : List Char) (b : Nat) (l r : List Char),
    byteSplit? s b = some (l, r) → s = l ++ r ∧ byteLen l = b := by
  intro s
  induction s with
  | nil =>
    intro b l r h
    cases b with
    | zero =>
      simp [byteSplit?] at h
      rcases h with ⟨rfl, rfl⟩
      exact ⟨rfl, rfl⟩
    | succ b0 => simp [byteSplit?] at h
  | cons c rest ih =>
    intro b l r h
    cases b with
    | zero =>
      simp [byteSplit?] at h
      rcases h with ⟨rfl, rfl⟩
      exact ⟨rfl, rfl⟩
    | succ b0 =>
      simp only [byteSplit?, Nat.succ_ne_zero, if_false] at h
      split at h
      · next hle =>
        simp only [Option.map_eq_some'] at h
        obtain ⟨⟨l2, r2⟩, hrec, heq⟩ := h
        obtain ⟨hrest, hblen⟩ := ih _ _ _ hrec
        simp only [Prod.mk.injEq] at heq
        obtain ⟨h1, h2⟩ := heq
        subst h1
        subst h2
        constructor
        · rw [hrest]; rfl
        · rw [byteLen_cons, hblen]; omega
      · simp at h

theorem byteSplit?_snd_short {t m r : List Char} {b : Nat} (hb : 0 < b)
    (h : byteSplit? t b = some (m, r)) : r.length < t.length := by
  obtain ⟨ht, hbl⟩ := byteSplit?_some t b m r h
  have hm : m ≠ [] := by
    intro hnil
    rw [hnil] at hbl
    simp [byteLen] at hbl
    omega
  have : 0 < m.length := List.length_pos.mpr hm
  rw [ht, List.length_append]
  omega

theorem splitParts_short {t l lrest m r : List Char} {p k : Nat} (hk : 0 < k)
    (h1 : byteSplit? t p = some (l, lrest))
    (h2 : byteSplit? t (p + k) = some (m, r)) :
    l.length < t.length ∧ r.length < t.length := by
  obtain ⟨ht1, hb1⟩ := byteSplit?_some t p l lrest h1
  obtain ⟨ht2, hb2⟩ := byteSplit?_some t (p + k) m r h2
  have e1 : byteLen t = p + byteLen lrest := by
    rw [ht1, byteLen_append, hb1]
  have e2 : byteLen t = (p + k) + byteLen r := by
    rw [ht2, byteLen_append, hb2]
  have hlrest : lrest ≠ [] := by
    intro hnil
    rw [hnil] at e1
    rw [show byteLen ([] : List Char) = 0 from rfl] at e1
    omega
  refine ⟨?_, byteSplit?_snd_short (by omega) h2⟩
  have : 0 < lrest.length := List.length_pos.mpr hlrest
  have : t.length = l.length + lrest.length := by
    rw [ht1, List.length_append]
  omega

theorem rustTrimStart_length_le (s : List Char) :
    (rustTrimStart s).length ≤ s.length :=
  (List.dropWhile_sublist _).length_le

theorem rustTrimEnd_length_le (s : List Char) :
    (rustTrimEnd s).length ≤ s.length := by
  unfold rustTrimEnd
  rw [List.length_reverse]
  calc (s.reverse.dropWhile isRustWs).length ≤ s.reverse.length :=
        (List.dropWhile_sublist _).length_le
    _ = s.length := List.length_reverse s

theorem rustTrim_length_le (s : List Char) : (rustTrim s).length ≤ s.length :=
  le_trans (rustTrimEnd_length_le _) (rustTrimStart_length_le s)

/-! Fuel irrelevance for the parser: any fuel above the length of the
input yields the same result, so `parse` computes the limit of the
source's recursion. -/

theorem parseStep_congr (rec1 rec2 : List Char → PRes) (input : List Char)
    (h : ∀ x : List Char, x.length < (rustTrim input).length → rec1 x = rec2 x) :
    parseStep rec1 input = parseStep rec2 input := by
  simp only [parseStep]
  split
  · rfl
  · split
    · next p hor =>
      split
      · next l lrest m2 r h1 h2 =>
        obtain ⟨hl, hr⟩ := splitParts_short (by omega : (0:Nat) < 4) h1 h2
        have htl := rustTrim_length_le l
        have htr := rustTrim_length_le r
        rw [h _ (by omega)]
        simp only [h _ (by omega : (rustTrim r).length < (rustTrim input).length)]
      · rfl
    · split
      · next p hand =>
        split
        · next l lrest m2 r h1 h2 =>
          obtain ⟨hl, hr⟩ := splitParts_short (by omega : (0:Nat) < 5) h1 h2
          have htl := rustTrim_length_le l
          have htr := rustTrim_length_le r
          rw [h _ (by omega)]
          simp only [h _ (by omega : (rustTrim r).length < (rustTrim input).length)]
        · rfl
      · split
        · split
          · next m2 rest h4 =>
            have hrest := byteSplit?_snd_short (by omega : (0:Nat) < 4) h4
            have htr := rustTrim_length_le rest
            rw [h _ (by omega)]
          · rfl
        · rfl

theorem parseF_irrel : ∀ (n m : Nat) (input : List Char),
    input.length < n → input.length < m → parseF n input = parseF m input := by
  intro n
  induction n using Nat.strong_induction_on with
  | _ n ih =>
  intro m input hn hm
  cases n with
  | zero => omega
  | succ n' =>
  cases m with
  | zero => omega
  | succ m' =>
  have hts := rustTrim_length_le input
  show parseStep (parseF n') input = parseStep (parseF m') input
  refine parseStep_congr _ _ _ (fun x hx => ?_)
  exact ih n' (by omega) m' x (by omega) (by omega)

theorem parse_eq_step (input : List Char) :
    parse input = parseStep (parseF input.length) input := rfl

theorem parseF_eq_parse (fuel : Nat) (x : List Char) (h : x.length < fuel) :
    parseF fuel x = parse x :=
  parseF_irrel fuel (x.length + 1) x h (by omega)

/-! Branch equations for `parse`, mirroring the branch order of the
source: empty input, `" OR "`, `" AND "`, leading `"NOT "`, comparison. -/

theorem parse_of_trim_nil {input : List Char} (h : rustTrim input = []) :
    parse input = .err .emptyExpression := by
  rw [parse_eq_step]
  simp only [parseStep]
  simp [h]

theorem parse_or_branch (input l lrest m2 r : List Char) (p : Nat)
    (hne : rustTrim input ≠ [])
    (hfind : findSub (rustToUpper (rustTrim input)) orKw = some p)
    (h1 : byteSplit? (rustTrim input) p = some (l, lrest))
    (h2 : byteSplit? (rustTrim input) (p + 4) = some (m2, r)) :
    parse input = (parse (rustTrim l)).bind fun le =>
      (parse (rustTrim r)).bind fun re => PRes.ok (.or le re) := by
  obtain ⟨hl, hr⟩ := splitParts_short (by omega : (0:Nat) < 4) h1 h2
  have hts := rustTrim_length_le input
  have htl := rustTrim_length_le l
  have htr := rustTrim_length_le r
  rw [parse_eq_step]
  simp only [parseStep, hfind, h1, h2, if_neg hne]
  rw [parseF_eq_parse _ _ (by omega)]
  simp only [parseF_eq_parse input.length (rustTrim r) (by omega)]

theorem parse_or_crash1 (input : List Char) (p : Nat)
    (hne : rustTrim input ≠ [])
    (hfind : findSub (rustToUpper (rustTrim input)) orKw = some p)
    (h1 : byteSplit? (rustTrim input) p = none) :
    parse input = .crash := by
  rw [parse_eq_step]
  rcases hx : byteSplit? (rustTrim input) (p + 4) with _ | ⟨m2, r⟩ <;>
    simp only [parseStep, hfind, h1, hx, if_neg hne]

theorem parse_or_crash2 (input l lrest : List Char) (p : Nat)
    (hne : rustTrim input ≠ [])
    (hfind : findSub (rustToUpper (rustTrim input)) orKw = some p)
    (h1 : byteSplit? (rustTrim input) p = some (l, lrest))
    (h2 : byteSplit? (rustTrim input) (p + 4) = none) :
    parse input = .crash := by
  rw [parse_eq_step]
  simp only [parseStep, hfind, h1, h2, if_neg hne]

theorem parse_and_branch (input l lrest m2 r : List Char) (p : Nat)
    (hne : rustTrim input ≠ [])
    (hor : findSub (rustToUpper (rustTrim input)) orKw = none)
    (hfind : findSub (rustToUpper (rustTrim input)) andKw = some p)
    (h1 : byteSplit? (rustTrim input) p = some (l, lrest))
    (h2 : byteSplit? (rustTrim input) (p + 5) = some (m2, r)) :
    parse input = (parse (rustTrim l)).bind fun le =>
      (parse (rustTrim r)).bind fun re => PRes.ok (.and le re) := by
  obtain ⟨hl, hr⟩ := splitParts_short (by omega : (0:Nat) < 5) h1 h2
  have hts := rustTrim_length_le input
  have htl := rustTrim_length_le l
  have htr := rustTrim_length_le r
  rw [parse_eq_step]
  simp only [parseStep, hor, hfind, h1, h2, if_neg hne]
  rw [parseF_eq_parse _ _ (by omega)]
  simp only [parseF_eq_parse input.length (rustTrim r) (by omega)]

theorem parse_not_branch (input m2 rest : List Char)
    (hne : rustTrim input ≠ [])
    (hor : findSub (rustToUpper (rustTrim input)) orKw = none)
    (hand : findSub (rustToUpper (rustTrim input)) andKw = none)
    (hnot : notKw.isPrefixOf (rustToUpper (rustTrim input)) = true)
    (h4 : byteSplit? (rustTrim input) 4 = some (m2, rest)) :
    parse input = (parse (rustTrim rest)).bind fun ie => PRes.ok (.not ie) := by
  have hrest := byteSplit?_snd_short (by omega : (0:Nat) < 4) h4
  have hts := rustTrim_length_le input
  have htr := rustTrim_length_le rest
  rw [parse_eq_step]
  simp only [parseStep, hor, hand, hnot, h4, if_neg hne, eq_self_iff_true, if_true]
  rw [parseF_eq_parse _ _ (by omega)]

theorem parse_cmp_branch (input : List Char)
    (hne : rustTrim input ≠ [])
    (hor : findSub (rustToUpper (rustTrim input)) orKw = none)
    (hand : findSub (rustToUpper (rustTrim input)) andKw = none)
    (hnot : notKw.isPrefixOf (rustToUpper (rustTrim input)) = false) :
    parse input = parse_comparison (rustTrim input) := by
  rw [parse_eq_step]
  simp only [parseStep, hor, hand, hnot, if_neg hne]
  simp

/-- C4.  `parse` scans for the first case-insensitive `" OR "` before any
`" AND "`, `NOT` or comparison handling: whenever the scan of the
uppercased trimmed input finds `" OR "` at byte position `p` and parsing
succeeds, the root of the tree is an `Or` node whose children are the
parses of the two slices of the trimmed input around position `p`, so OR
has the lowest precedence. -/
theorem c4_or_lowest_precedence (input : List Char) (p : Nat) (e : FilterExpr)
    (hfind : findSub (rustToUpper (rustTrim input)) orKw = some p)
    (hok : parse input = PRes.ok e) :
    ∃ l lrest m2 r el er,
      byteSplit? (rustTrim input) p = some (l, lrest) ∧
      byteSplit? (rustTrim input) (p + 4) = some (m2, r) ∧
      parse (rustTrim l) = PRes.ok el ∧
      parse (rustTrim r) = PRes.ok er ∧
      e = FilterExpr.or el er := by
  have hne : rustTrim input ≠ [] := by
    intro h0
    rw [parse_of_trim_nil h0] at hok
    exact PRes.noConfusion hok
  rcases h1 : byteSplit? (rustTrim input) p with _ | ⟨l, lrest⟩
  · rw [parse_or_crash1 input p hne hfind h1] at hok
    exact PRes.noConfusion hok
  · rcases h2 : byteSplit? (rustTrim input) (p + 4) with _ | ⟨m2, r⟩
    · rw [parse_or_crash2 input l lrest p hne hfind h1 h2] at hok
      exact PRes.noConfusion hok
    · rw [parse_or_branch input l lrest m2 r p hne hfind h1 h2] at hok
      rcases hpl : parse (rustTrim l) with el | pe | _ <;>
        rw [hpl] at hok <;> simp only [PRes.bind] at hok
      · rcases hpr : parse (rustTrim r) with er | pe2 | _ <;>
          rw [hpr] at hok <;> simp only [PRes.bind] at hok
        · refine ⟨l, lrest, m2, r, el, er, rfl, rfl, hpl, hpr, ?_⟩
          injection hok with h
          exact h.symm
        · exact PRes.noConfusion hok
        · exact PRes.noConfusion hok
      · exact PRes.noConfusion hok
      · exact PRes.noConfusion hok

/-- Witness for C4 at a concrete input containing both separators. -/
theorem c4_or_lowest_precedence_witness :
    (findSub (rustToUpper (rustTrim (cs "a=1 AND b=2 OR c=3"))) orKw = some 11 ∧
      parse (cs "a=1 AND b=2 OR c=3") =
        PRes.ok (.or (.and (.comparison ['a'] .equal ['1'])
                           (.comparison ['b'] .equal ['2']))
                     (.comparison ['c'] .equal ['3']))) ∧
    (∃ l lrest m2 r el er,
      byteSplit? (rustTrim (cs "a=1 AND b=2 OR c=3")) 11 = some (l, lrest) ∧
      byteSplit? (rustTrim (cs "a=1 AND b=2 OR c=3")) (11 + 4) = some (m2, r) ∧
      parse (rustTrim l) = PRes.ok el ∧
      parse (rustTrim r) = PRes.ok er ∧
      FilterExpr.or (.and (.comparison ['a'] .equal ['1'])
                          (.comparison ['b'] .equal ['2']))
                    (.comparison ['c'] .equal ['3']) = FilterExpr.or el er) :=
  ⟨⟨by decide, by decide⟩,
    c4_or_lowest_precedence (cs "a=1 AND b=2 OR c=3") 11
      (.or (.and (.comparison ['a'] .equal ['1'])
                 (.comparison ['b'] .equal ['2']))
           (.comparison ['c'] .equal ['3']))
      (by decide) (by decide)⟩

/-! Characterization of the first-occurrence splits used by the
comparison scanner. -/

theorem splitFirst_some : ∀ (s pat b a : List Char),
    splitFirst s pat = some (b, a) →
    s = b ++ pat ++ a ∧
      ∀ b2 a2 : List Char, s = b2 ++ pat ++ a2 → b.length ≤ b2.length := by
  intro s
  induction s with
  | nil =>
    intro pat b a h
    simp only [splitFirst] at h
    split at h
    · next hp =>
      simp only [Option.some.injEq, Prod.mk.injEq] at h
      obtain ⟨hb, ha⟩ := h
      have hpre : pat <+: ([] : List Char) := List.isPrefixOf_iff_prefix.mp hp
      have hpat : pat = [] := List.prefix_nil.mp hpre
      subst hpat
      constructor
      · rw [← hb, ← ha]; rfl
      · intro b2 a2 h2; rw [← hb]; exact Nat.zero_le _
    · simp at h
  | cons c rest ih =>
    intro pat b a h
    simp only [splitFirst] at h
    split at h
    · next hp =>
      simp only [Option.some.injEq, Prod.mk.injEq] at h
      obtain ⟨hb, ha⟩ := h
      have hpre : pat <+: c :: rest := List.isPrefixOf_iff_prefix.mp hp
      obtain ⟨t2, ht2⟩ := hpre
      constructor
      · rw [← hb, ← ha, ← ht2, List.drop_left]; rfl
      · intro b2 a2 h2; rw [← hb]; exact Nat.zero_le _
    · next hp =>
      simp only [Option.map_eq_some'] at h
      obtain ⟨⟨b1, a1⟩, hrec, heq⟩ := h
      simp only [Prod.mk.injEq] at heq
      obtain ⟨hb, ha⟩ := heq
      obtain ⟨hs, hmin⟩ := ih pat b1 a1 hrec
      subst hb
      subst ha
      constructor
      · rw [hs]; rfl
      · intro b2 a2 h2
        cases b2 with
        | nil =>
          exfalso
          apply hp
          apply List.isPrefixOf_iff_prefix.mpr
          exact ⟨a2, by simpa using h2.symm⟩
        | cons c2 b2t =>
          simp only [List.cons_append] at h2
          injection h2 with hc hrest
          simpa using Nat.succ_le_succ (hmin b2t a2 hrest)

theorem splitFirst_none : ∀ (s pat : List Char),
    splitFirst s pat = none → containsSub s pat = false := by
  intro s
  induction s with
  | nil =>
    intro pat h
    simp only [splitFirst] at h
    split at h
    · simp at h
    · next hp => simp [containsSub, hp]
  | cons c rest ih =>
    intro pat h
    simp only [splitFirst] at h
    split at h
    · simp at h
    · next hp =>
      simp only [Option.map_eq_none'] at h
      simp [containsSub, hp, ih pat h]

theorem findSub_none : ∀ (s pat : List Char),
    findSub s pat = none → containsSub s pat = false := by
  intro s
  induction s with
  | nil =>
    intro pat h
    simp only [findSub] at h
    split at h
    · simp at h
    · next hp => simp [containsSub, hp]
  | cons c rest ih =>
    intro pat h
    simp only [findSub] at h
    split at h
    · simp at h
    · next hp =>
      simp only [Option.map_eq_none'] at h
      simp [containsSub, hp, ih pat h]

theorem scanOps_some : ∀ (ops : List (List Char × ComparisonOp))
    (input b a : List Char) (op : ComparisonOp),
    scanOps ops input = some (b, op, a) →
    ∃ (k : Nat) (s1 : List Char), ops[k]? = some (s1, op) ∧
      splitFirst input s1 = some (b, a) ∧
      ∀ (j : Nat) (s2 : List Char) (op2 : ComparisonOp), j < k →
        ops[j]? = some (s2, op2) → splitFirst input s2 = none := by
  intro ops
  induction ops with
  | nil => intro input b a op h; simp [scanOps] at h
  | cons hd tl ih =>
    intro input b a op h
    obtain ⟨s0, o0⟩ := hd
    simp only [scanOps] at h
    cases hsp : splitFirst input s0 with
    | some pr =>
      obtain ⟨b0, a0⟩ := pr
      rw [hsp] at h
      simp only [Option.some.injEq, Prod.mk.injEq] at h
      obtain ⟨hb, ho, ha⟩ := h
      subst hb
      subst ho
      subst ha
      exact ⟨0, s0, by simp, hsp, fun j s2 op2 hj _ => absurd hj (Nat.not_lt_zero j)⟩
    | none =>
      rw [hsp] at h
      obtain ⟨k, s1, hk, hsplit, hearlier⟩ := ih input b a op h
      refine ⟨k + 1, s1, by simpa using hk, hsplit, ?_⟩
      intro j s2 op2 hj hjget
      cases j with
      | zero =>
        simp only [List.getElem?_cons_zero, Option.some.injEq, Prod.mk.injEq] at hjget
        obtain ⟨h1, _⟩ := hjget
        rw [← h1]
        exact hsp
      | succ j1 =>
        exact hearlier j1 s2 op2 (by omega) (by simpa using hjget)

/-- C5.  The comparison scanner tries the operator tokens in the fixed
table order `>=, <=, !=, =, >, <, :` and splits at the first occurrence of
the earliest-listed token occurring anywhere in the text: whenever the
scan yields `(b, op1, a)`, some table entry `(s1, op1)` at index `k`
satisfies `input = b ++ s1 ++ a`, no decomposition of `input` around `s1`
has a shorter prefix, every token listed before index `k` occurs nowhere
in `input`, and `parse_comparison` builds its comparison from exactly this
split. -/
theorem c5_operator_priority (input b a : List Char) (op1 : ComparisonOp)
    (h : scanOps operators input = some (b, op1, a)) :
    (parse_comparison input =
      (if rustTrim b = [] ∨
          trimMatchesChar (Char.ofNat 39)
            (trimMatchesChar (Char.ofNat 34) (rustTrim a)) = [] then
        PRes.err ParseErr.invalidComparison
      else
        PRes.ok (.comparison (rustTrim b) op1
          (trimMatchesChar (Char.ofNat 39)
            (trimMatchesChar (Char.ofNat 34) (rustTrim a)))))) ∧
    ∃ (k : Nat) (s1 : List Char), operators[k]? = some (s1, op1) ∧
      input = b ++ s1 ++ a ∧
      (∀ b2 a2 : List Char, input = b2 ++ s1 ++ a2 → b.length ≤ b2.length) ∧
      (∀ (j : Nat) (s2 : List Char) (op2 : ComparisonOp), j < k →
        operators[j]? = some (s2, op2) → containsSub input s2 = false) := by
  obtain ⟨k, s1, hk, hsplit, hearlier⟩ := scanOps_some operators input b a op1 h
  obtain ⟨hs, hmin⟩ := splitFirst_some input s1 b a hsplit
  refine ⟨by simp [parse_comparison, h], k, s1, hk, hs, hmin, ?_⟩
  exact fun j s2 op2 hj hg => splitFirst_none input s2 (hearlier j s2 op2 hj hg)

/-- Witness for C5 at a concrete input where the later-listed token `<`
occurs earlier in the text than the earlier-listed token `>=`, and `>=`
still wins. -/
theorem c5_operator_priority_witness :
    (scanOps operators (cs "a<b>=c") = some (cs "a<b", .greaterOrEqual, ['c'])) ∧
    ((parse_comparison (cs "a<b>=c") =
      (if rustTrim (cs "a<b") = [] ∨
          trimMatchesChar (Char.ofNat 39)
            (trimMatchesChar (Char.ofNat 34) (rustTrim ['c'])) = [] then
        PRes.err ParseErr.invalidComparison
      else
        PRes.ok (.comparison (rustTrim (cs "a<b")) .greaterOrEqual
          (trimMatchesChar (Char.ofNat 39)
            (trimMatchesChar (Char.ofNat 34) (rustTrim ['c'])))))) ∧
    ∃ (k : Nat) (s1 : List Char),
      operators[k]? = some (s1, ComparisonOp.greaterOrEqual) ∧
      cs "a<b>=c" = cs "a<b" ++ s1 ++ ['c'] ∧
      (∀ b2 a2 : List Char, cs "a<b>=c" = b2 ++ s1 ++ a2 →
        (cs "a<b").length ≤ b2.length) ∧
      (∀ (j : Nat) (s2 : List Char) (op2 : ComparisonOp), j < k →
        operators[j]? = some (s2, op2) →
        containsSub (cs "a<b>=c") s2 = false)) :=
  ⟨by decide, c5_operator_priority (cs "a<b>=c") (cs "a<b") ['c']
    .greaterOrEqual (by decide)⟩

/-- C10.  `parse` is not total: on the input `"ŉ OR é"` (U+0149, space,
`O`, `R`, space, U+00E9) the uppercased copy is `"ʼN OR É"`, in which
`" OR "` is found at byte position 3, but position 3 + 4 = 7 falls inside
the two-byte character U+00E9 of the original string, so the slice
`input[pos + 4..]` panics (modelled by `byteSplit? _ 7 = none` and the
`crash` outcome). -/
theorem c10_parse_panic_input :
    findSub (rustToUpper (rustTrim
      [Char.ofNat 329, ' ', 'O', 'R', ' ', Char.ofNat 233])) orKw = some 3 ∧
    byteSplit? (rustTrim
      [Char.ofNat 329, ' ', 'O', 'R', ' ', Char.ofNat 233]) (3 + 4) = none ∧
    parse [Char.ofNat 329, ' ', 'O', 'R', ' ', Char.ofNat 233] =
      PRes.crash := by
  decide

/-- C2 (counterexample).  The facade checks `pattern.is_empty()` without
trimming, so the whitespace-only pattern `" "` is not treated as a no-op:
it reaches the parser and produces the empty-expression error instead of
returning the table unchanged. -/
theorem c2_blank_filter_counterexample :
    dsFilter [(['a'], Column.i64 [some 1])] [' '] =
      FRes.perr ParseErr.emptyExpression ∧
    dsFilter [(['a'], Column.i64 [some 1])] [' '] ≠
      FRes.ok [(['a'], Column.i64 [some 1])] := by
  decide

/-- C2 (amended).  The facade returns the table unchanged exactly on the
empty pattern; a nonempty pattern that is whitespace-only after trimming
reaches the parser and yields the `EmptyExpression` error. -/
theorem c2_blank_filter_amended (df : DataFrame) (s : List Char)
    (hne : s ≠ []) (htrim : rustTrim s = []) :
    dsFilter df [] = FRes.ok df ∧
    dsFilter df s = FRes.perr ParseErr.emptyExpression := by
  constructor
  · simp [dsFilter]
  · have hp := parse_of_trim_nil htrim
    simp [dsFilter, hne, hp]

/-- Witness for the amended C2 at the single-space pattern. -/
theorem c2_blank_filter_amended_witness :
    (([' '] : List Char) ≠ [] ∧ rustTrim [' '] = []) ∧
    (dsFilter [(['a'], Column.i64 [some 1])] [] =
        FRes.ok [(['a'], Column.i64 [some 1])] ∧
      dsFilter [(['a'], Column.i64 [some 1])] [' '] =
        FRes.perr ParseErr.emptyExpression) :=
  ⟨⟨by decide, by decide⟩,
    c2_blank_filter_amended [(['a'], Column.i64 [some 1])] [' ']
      (by decide) (by decide)⟩

/-- C1 (counterexample).  On an `Int64` column `[1, null]` with the
comparison `n = 1`, the mask slot of the null row is null (`none`), not
`false`, and applying the negated comparison selects no rows at all — in
particular the null row does not flip to selected. -/
theorem c1_null_mask_counterexample :
    evaluate (.comparison ['n'] .equal ['1'])
        [(['n'], Column.i64 [some 1, none])] ≠
      Except.ok [some true, some false] ∧
    evaluate (.comparison ['n'] .equal ['1'])
        [(['n'], Column.i64 [some 1, none])] =
      Except.ok [some true, none] ∧
    applyFilter (.not (.comparison ['n'] .equal ['1']))
        [(['n'], Column.i64 [some 1, none])] =
      Except.ok [(['n'], Column.i64 ([] : List (Option Int)))] := by
  decide

theorem evaluate_not_ok {e : FilterExpr} {df : DataFrame} {m : Mask}
    (h : evaluate e df = .ok m) :
    evaluate (.not e) df = .ok (maskNot m) := by
  simp [evaluate, h]

theorem evaluate_and_ok {e1 e2 : FilterExpr} {df : DataFrame} {m1 m2 : Mask}
    (h1 : evaluate e1 df = .ok m1) (h2 : evaluate e2 df = .ok m2) :
    evaluate (.and e1 e2) df = .ok (kandM m1 m2) := by
  simp [evaluate, h1, h2, Bind.bind, Except.bind, Pure.pure, Except.pure]

theorem evaluate_or_ok {e1 e2 : FilterExpr} {df : DataFrame} {m1 m2 : Mask}
    (h1 : evaluate e1 df = .ok m1) (h2 : evaluate e2 df = .ok m2) :
    evaluate (.or e1 e2) df = .ok (korM m1 m2) := by
  simp [evaluate, h1, h2, Bind.bind, Except.bind, Pure.pure, Except.pure]

/-- C1 (amended).  For a numeric comparison on a named `Int64` column, a
null slot yields a null (unknown) mask slot, and negation keeps it null,
so a row excluded because of null data stays excluded under `Not` (the
filter keeps only valid-`true` slots). -/
theorem c1_null_slot_amended (name value : List Char)
    (vals : List (Option Int)) (q : F64)
    (hstar : name ≠ ['*']) (hq : parseF64 value = some q) :
    ∃ msk : Mask,
      evaluate (.comparison name .equal value) [(name, Column.i64 vals)] =
        .ok msk ∧
      evaluate (.not (.comparison name .equal value))
        [(name, Column.i64 vals)] = .ok (maskNot msk) ∧
      ∀ i : Nat, vals[i]? = some none →
        msk[i]? = some none ∧ (maskNot msk)[i]? = some none := by
  have h1 : evaluate (.comparison name .equal value)
      [(name, Column.i64 vals)] =
      .ok (vals.map (Option.map (fun v : ℤ => F64.beqB (.finite (v : ℚ)) q))) := by
    simp [evaluate, evaluate_comparison, numeric_comparison, dfColumn,
      List.find?, Column.asStr, Column.asI64, hstar, hq]
  refine ⟨vals.map (Option.map (fun v : ℤ => F64.beqB (.finite (v : ℚ)) q)),
    h1, ?_, ?_⟩
  · exact evaluate_not_ok h1
  · intro i hi
    constructor
    · simp [List.getElem?_map, hi]
    · simp [maskNot, List.getElem?_map, hi]

/-- Witness for the amended C1 on the column `[1, null]` and value `1`. -/
theorem c1_null_slot_amended_witness :
    ((['n'] : List Char) ≠ ['*'] ∧ parseF64 ['1'] = some (F64.finite 1)) ∧
    (∃ msk : Mask,
      evaluate (.comparison ['n'] .equal ['1'])
          [(['n'], Column.i64 [some 1, none])] = .ok msk ∧
      evaluate (.not (.comparison ['n'] .equal ['1']))
          [(['n'], Column.i64 [some 1, none])] = .ok (maskNot msk) ∧
      ∀ i : Nat, ([some 1, none] : List (Option Int))[i]? = some none →
        msk[i]? = some none ∧ (maskNot msk)[i]? = some none) :=
  ⟨⟨by decide, by decide⟩,
    c1_null_slot_amended ['n'] ['1'] [some 1, none] (F64.finite 1)
      (by decide) (by decide)⟩

/-- C3 (counterexample).  A `UInt32` column is a numeric representation,
yet `numeric_comparison` tries only the `i64`, `i32`, `f64`, `f32`
accessors and rejects it as non-numeric even though the value parses as a
float. -/
theorem c3_numeric_dtype_counterexample :
    parseF64 ['1'] = some (.finite 1) ∧
    evaluate (.comparison ['c'] .equal ['1']) [(['c'], Column.u32 [some 1])] =
      .error .columnNotNumeric := by
  decide

/-- C3 (amended).  For the six value comparisons, when the value parses as
a float the four covered numeric dtypes (`Int64`, `Int32`, `Float64`,
`Float32`) are widened to 64-bit float and compared slot-wise, while any
other numeric dtype (here `UInt32`) is rejected with the non-numeric
error. -/
theorem c3_widening_amended (name value : List Char) (q : F64)
    (op : ComparisonOp) (f : F64 → F64 → Bool)
    (hstar : name ≠ ['*']) (hq : parseF64 value = some q)
    (hop : (op, f) ∈ ([(ComparisonOp.equal, fun a b => F64.beqB a b),
      (.notEqual, fun a b => !F64.beqB a b),
      (.greaterThan, fun a b => F64.ltB b a),
      (.lessThan, fun a b => F64.ltB a b),
      (.greaterOrEqual, fun a b => F64.leB b a),
      (.lessOrEqual, fun a b => F64.leB a b)] :
        List (ComparisonOp × (F64 → F64 → Bool)))) :
    (∀ vals : List (Option Int),
      evaluate (.comparison name op value) [(name, Column.i64 vals)] =
        .ok (vals.map (Option.map (fun v : ℤ => f (.finite (v : ℚ)) q)))) ∧
    (∀ vals : List (Option Int),
      evaluate (.comparison name op value) [(name, Column.i32 vals)] =
        .ok (vals.map (Option.map (fun v : ℤ => f (.finite (v : ℚ)) q)))) ∧
    (∀ vals : List (Option F64),
      evaluate (.comparison name op value) [(name, Column.f64 vals)] =
        .ok (vals.map (Option.map (fun v => f v q)))) ∧
    (∀ vals : List (Option F64),
      evaluate (.comparison name op value) [(name, Column.f32 vals)] =
        .ok (vals.map (Option.map (fun v => f v q)))) ∧
    (∀ vals : List (Option Nat),
      evaluate (.comparison name op value) [(name, Column.u32 vals)] =
        .error .columnNotNumeric) := by
  simp only [List.mem_cons, List.not_mem_nil, or_false, Prod.mk.injEq] at hop
  rcases hop with ⟨rfl, rfl⟩ | ⟨rfl, rfl⟩ | ⟨rfl, rfl⟩ | ⟨rfl, rfl⟩ |
    ⟨rfl, rfl⟩ | ⟨rfl, rfl⟩ <;>
    refine ⟨fun vals => ?_, fun vals => ?_, fun vals => ?_,
      fun vals => ?_, fun vals => ?_⟩ <;>
    simp [evaluate, evaluate_comparison, numeric_comparison, dfColumn,
      List.find?, Column.asStr, Column.asI64, Column.asI32, Column.asF64,
      Column.asF32, hstar, hq]

/-- Witness for the amended C3: `Equal` on an `Int64` column with value
`2`, including a null slot. -/
theorem c3_widening_amended_witness :
    ((['p'] : List Char) ≠ ['*'] ∧ parseF64 ['2'] = some (F64.finite 2)) ∧
    evaluate (.comparison ['p'] .equal ['2'])
        [(['p'], Column.i64 [some 2, none])] =
      .ok (([some 2, none] : List (Option Int)).map
        (Option.map (fun v : ℤ => F64.beqB (.finite (v : ℚ)) (F64.finite 2)))) :=
  ⟨⟨by decide, by decide⟩,
    (c3_widening_amended ['p'] ['2'] (F64.finite 2) .equal
      (fun a b => F64.beqB a b) (by decide) (by decide)
      (List.mem_cons_self _ _)).1 [some 2, none]⟩

/-- C6 (counterexample).  `Price > abc`: the value does not parse as a
float, the column is numeric (`Int64`), and the comparison nevertheless
fails — although the claim allows an error only when the column is
neither numeric nor textual. -/
theorem c6_ordering_counterexample :
    parseF64 (cs "abc") = none ∧
    evaluate (.comparison ['c'] .greaterThan (cs "abc"))
        [(['c'], Column.i64 [some 1])] =
      .error .columnNotNumericOrString := by
  decide

/-- C6 (amended).  For the four ordering comparisons on a named column:
when the value parses as a float, evaluation succeeds exactly on the four
covered numeric dtypes (a textual or other column is an error); when the
value does not parse, evaluation succeeds exactly on a textual column
(lexicographic fallback), and errors on every non-textual column —
including numeric ones. -/
theorem c6_ordering_amended (name value : List Char) (col : Column)
    (op : ComparisonOp) (hstar : name ≠ ['*'])
    (hop : op ∈ [ComparisonOp.greaterThan, ComparisonOp.lessThan,
      ComparisonOp.greaterOrEqual, ComparisonOp.lessOrEqual]) :
    (∃ m : Mask, evaluate (.comparison name op value) [(name, col)] = .ok m) ↔
      (match parseF64 value with
       | some _ => col.asI64.isSome = true ∨ col.asI32.isSome = true ∨
           col.asF64.isSome = true ∨ col.asF32.isSome = true
       | none => col.asStr.isSome = true) := by
  simp only [List.mem_cons, List.not_mem_nil, or_false] at hop
  rcases hop with rfl | rfl | rfl | rfl <;>
    cases hpv : parseF64 value <;> cases col <;>
      simp [evaluate, evaluate_comparison, numeric_comparison,
        string_comparison, dfColumn, List.find?, Column.asStr, Column.asI64,
        Column.asI32, Column.asF64, Column.asF32, hstar, hpv]

/-- Witness for the amended C6: `>` against a textual column with a value
that does not parse as a float (the lexicographic fallback applies). -/
theorem c6_ordering_amended_witness :
    ((['t'] : List Char) ≠ ['*'] ∧
      ComparisonOp.greaterThan ∈ [ComparisonOp.greaterThan,
        ComparisonOp.lessThan, ComparisonOp.greaterOrEqual,
        ComparisonOp.lessOrEqual] ∧
      parseF64 (cs "09:30") = none) ∧
    ((∃ m : Mask, evaluate (.comparison ['t'] .greaterThan (cs "09:30"))
        [(['t'], Column.str [some (cs "10:00")])] = .ok m) ↔
      (match parseF64 (cs "09:30") with
       | some _ => (Column.str [some (cs "10:00")]).asI64.isSome = true ∨
           (Column.str [some (cs "10:00")]).asI32.isSome = true ∨
           (Column.str [some (cs "10:00")]).asF64.isSome = true ∨
           (Column.str [some (cs "10:00")]).asF32.isSome = true
       | none => (Column.str [some (cs "10:00")]).asStr.isSome = true)) :=
  ⟨⟨by decide, by decide, by decide⟩,
    c6_ordering_amended ['t'] (cs "09:30") (Column.str [some (cs "10:00")])
      .greaterThan (by decide) (by decide)⟩

/-! Lemmas for the global-search claim: the scanner finds no operator iff
none occurs, and the global accumulator is empty iff no column is
textual. -/

theorem splitFirst_none_of : ∀ (s pat : List Char),
    containsSub s pat = false → splitFirst s pat = none := by
  intro s
  induction s with
  | nil =>
    intro pat h
    cases hp : pat.isPrefixOf ([] : List Char) <;>
      simp [splitFirst, containsSub, hp] at h ⊢
  | cons c rest ih =>
    intro pat h
    cases hp : pat.isPrefixOf (c :: rest) <;>
      simp [splitFirst, containsSub, hp] at h ⊢
    exact ih pat h

theorem findSub_none_of : ∀ (s pat : List Char),
    containsSub s pat = false → findSub s pat = none := by
  intro s
  induction s with
  | nil =>
    intro pat h
    cases hp : pat.isPrefixOf ([] : List Char) <;>
      simp [findSub, containsSub, hp] at h ⊢
  | cons c rest ih =>
    intro pat h
    cases hp : pat.isPrefixOf (c :: rest) <;>
      simp [findSub, containsSub, hp] at h ⊢
    exact ih pat h

theorem scanOps_none_of : ∀ (ops : List (List Char × ComparisonOp))
    (input : List Char),
    (∀ pr ∈ ops, containsSub input pr.1 = false) →
    scanOps ops input = none := by
  intro ops
  induction ops with
  | nil => intro input _; rfl
  | cons hd tl ih =>
    intro input h
    obtain ⟨s0, o0⟩ := hd
    simp only [scanOps,
      splitFirst_none_of input s0 (h (s0, o0) (List.mem_cons_self _ _))]
    exact ih input (fun pr hpr => h pr (List.mem_cons_of_mem _ hpr))

theorem globalAcc_cons_nonstr (pattern nm : List Char) (c : Column)
    (tl : List (List Char × Column)) (acc : Option Mask)
    (hc : c.asStr = none) :
    globalAcc pattern ((nm, c) :: tl) acc = globalAcc pattern tl acc := by
  cases c <;> first
    | rfl
    | (exfalso; simp [Column.asStr] at hc)

theorem globalAcc_cons_str_none (pattern nm : List Char)
    (vs : List (Option (List Char))) (tl : List (List Char × Column)) :
    globalAcc pattern ((nm, Column.str vs) :: tl) none =
      globalAcc pattern tl
        (some (vs.map (Option.map (fun v => containsSub v pattern)))) := rfl

theorem globalAcc_cons_str_some (pattern nm : List Char)
    (vs : List (Option (List Char))) (tl : List (List Char × Column))
    (m : Mask) :
    globalAcc pattern ((nm, Column.str vs) :: tl) (some m) =
      globalAcc pattern tl
        (some (korM m (vs.map (Option.map (fun v => containsSub v pattern))))) :=
  rfl

theorem globalAcc_eq_none : ∀ (cols : List (List Char × Column))
    (pattern : List Char) (acc : Option Mask),
    globalAcc pattern cols acc = none ↔
      (acc = none ∧ ∀ pr ∈ cols, pr.2.asStr = none) := by
  intro cols
  induction cols with
  | nil => intro pattern acc; simp [globalAcc]
  | cons hd tl ih =>
    intro pattern acc
    obtain ⟨nm, c⟩ := hd
    cases hc : c.asStr with
    | none =>
      rw [globalAcc_cons_nonstr pattern nm c tl acc hc]
      simp [ih, List.forall_mem_cons, hc]
    | some vs =>
      cases c <;> simp [Column.asStr] at hc
      subst hc
      cases acc with
      | none =>
        rw [globalAcc_cons_str_none]
        simp [ih, List.forall_mem_cons, Column.asStr]
      | some m =>
        rw [globalAcc_cons_str_some]
        simp [ih, List.forall_mem_cons, Column.asStr]

theorem evaluate_global_search_err (df : DataFrame) (pattern : List Char) :
    evaluate_global_search df pattern = .error .noSearchableColumns ↔
      ∀ pr ∈ df, pr.2.asStr = none := by
  unfold evaluate_global_search
  cases hg : globalAcc pattern df none with
  | none =>
    have h := (globalAcc_eq_none df pattern none).mp hg
    exact ⟨fun _ => h.2, fun _ => rfl⟩
  | some m =>
    simp only []
    constructor
    · intro h; exact Except.noConfusion h
    · intro hall
      have : globalAcc pattern df none = none :=
        (globalAcc_eq_none df pattern none).mpr ⟨rfl, hall⟩
      rw [hg] at this
      exact Option.noConfusion this

/-- C7 (counterexample).  The text `"a OR b"` contains none of the seven
operator tokens, yet `parse` does not treat it as a single global
substring search: the `" OR "` separator makes the root an `Or` of two
global searches. -/
theorem c7_global_search_counterexample :
    (∀ pr ∈ operators, containsSub (cs "a OR b") pr.1 = false) ∧
    parse (cs "a OR b") =
      .ok (.or (.comparison ['*'] .contains ['a'])
               (.comparison ['*'] .contains ['b'])) ∧
    FilterExpr.or (.comparison ['*'] .contains ['a'])
        (.comparison ['*'] .contains ['b']) ≠
      FilterExpr.comparison ['*'] .contains (cs "a OR b") := by
  refine ⟨?_, by decide, by decide⟩
  decide

/-- C7 (amended).  For a filter text whose trim is nonempty, contains no
operator token, whose uppercase contains neither `" OR "` nor `" AND "`
and does not start with `"NOT "`, `parse` yields the global search
`Comparison("*", Contains, trimmed text)`, and evaluating that comparison
fails with `NoSearchableColumns` exactly when the table has no textual
column. -/
theorem c7_global_search_amended (input : List Char) (df : DataFrame)
    (hne : rustTrim input ≠ [])
    (hops : ∀ pr ∈ operators, containsSub (rustTrim input) pr.1 = false)
    (hor : containsSub (rustToUpper (rustTrim input)) orKw = false)
    (hand : containsSub (rustToUpper (rustTrim input)) andKw = false)
    (hnot : notKw.isPrefixOf (rustToUpper (rustTrim input)) = false) :
    parse input = .ok (.comparison ['*'] .contains (rustTrim input)) ∧
    (evaluate (.comparison ['*'] .contains (rustTrim input)) df =
        .error .noSearchableColumns ↔ ∀ pr ∈ df, pr.2.asStr = none) := by
  constructor
  · rw [parse_cmp_branch input hne (findSub_none_of _ _ hor)
      (findSub_none_of _ _ hand) hnot]
    simp [parse_comparison, scanOps_none_of operators (rustTrim input) hops]
  · rw [show evaluate (.comparison ['*'] .contains (rustTrim input)) df =
        evaluate_global_search df (rustTrim input) from by simp [evaluate]]
    exact evaluate_global_search_err df (rustTrim input)

/-- Witness for the amended C7: the text `"ZZZ"` against a table with one
numeric and no textual column. -/
theorem c7_global_search_amended_witness :
    (rustTrim (cs "ZZZ") ≠ [] ∧
      (∀ pr ∈ operators, containsSub (rustTrim (cs "ZZZ")) pr.1 = false) ∧
      containsSub (rustToUpper (rustTrim (cs "ZZZ"))) orKw = false ∧
      containsSub (rustToUpper (rustTrim (cs "ZZZ"))) andKw = false ∧
      notKw.isPrefixOf (rustToUpper (rustTrim (cs "ZZZ"))) = false) ∧
    (parse (cs "ZZZ") =
      .ok (.comparison ['*'] .contains (rustTrim (cs "ZZZ"))) ∧
    (evaluate (.comparison ['*'] .contains (rustTrim (cs "ZZZ")))
        [(['n'], Column.i64 [some 1])] =
        .error .noSearchableColumns ↔
      ∀ pr ∈ ([(['n'], Column.i64 [some 1])] : DataFrame),
        pr.2.asStr = none)) :=
  ⟨⟨by decide, by decide, by decide, by decide, by decide⟩,
    c7_global_search_amended (cs "ZZZ") [(['n'], Column.i64 [some 1])]
      (by decide) (by decide) (by decide) (by decide) (by decide)⟩

/-! Lemmas describing the row selection performed by the mask filter. -/

theorem maskFilter_cons {α : Type} (x : Option Bool) (m : Mask) (v : α)
    (vs : List α) :
    maskFilter (x :: m) (v :: vs) =
      (if x = some true then [v] else []) ++ maskFilter m vs := by
  by_cases hx : x = some true <;> simp [maskFilter, hx]

theorem maskFilter_sublist {α : Type} :
    ∀ (m : Mask) (vals : List α), List.Sublist (maskFilter m vals) vals := by
  intro m
  induction m with
  | nil => intro vals; simp [maskFilter]
  | cons x m ih =>
    intro vals
    cases vals with
    | nil => simp [maskFilter]
    | cons v vs =>
      rw [maskFilter_cons]
      by_cases hx : x = some true
      · simpa [hx] using List.Sublist.cons₂ v (ih vs)
      · simpa [hx] using List.Sublist.cons v (ih vs)

theorem maskFilter_spec {α : Type} :
    ∀ (m : Mask) (vals : List α),
    maskFilter m vals = (List.range (min m.length vals.length)).filterMap
      (fun i => if m[i]? = some (some true) then vals[i]? else none) := by
  intro m
  induction m with
  | nil => intro vals; simp [maskFilter]
  | cons x m ih =>
    intro vals
    cases vals with
    | nil => simp [maskFilter]
    | cons v vs =>
      rw [maskFilter_cons, ih vs]
      rw [show min ((x :: m).length) ((v :: vs).length) =
            min m.length vs.length + 1 from by
          simp [Nat.succ_min_succ]]
      rw [List.range_succ_eq_map, List.filterMap_cons, List.filterMap_map]
      by_cases hx : x = some true <;>
        simp only [hx, List.getElem?_cons_zero, Option.some.injEq, if_pos,
          if_neg, List.cons_append, List.nil_append, reduceIte] <;>
        first
          | exact congrArg _
              (List.filterMap_congr (fun i _ => by
                simp [Function.comp])).symm
          | exact (List.filterMap_congr (fun i _ => by
              simp [Function.comp, hx])).symm

theorem maskFilter_length {α : Type} :
    ∀ (m : Mask) (vals : List α), vals.length = m.length →
    (maskFilter m vals).length = m.countP (fun x => x == some true) := by
  intro m
  induction m with
  | nil =>
    intro vals h
    have hv : vals = [] := List.length_eq_zero.mp h
    subst hv
    simp [maskFilter]
  | cons x m ih =>
    intro vals h
    cases vals with
    | nil => simp at h
    | cons v vs =>
      have hlen : vs.length = m.length := by simpa using h
      rw [maskFilter_cons, List.length_append, ih vs hlen, List.countP_cons]
      by_cases hx : x = some true <;> (simp [hx]; try omega)

/-- C8.  Whenever evaluation of an expression succeeds with mask `msk`,
`applyFilter` returns the frame filtered by that mask; the filtered frame
has the same column names in the same order, every column keeps exactly
its slots at the valid-`true` positions of the mask, in the original
relative order with no duplication (a sublist), and when the mask length
matches the column length the surviving row count is the number of
valid-`true` bits of the mask. -/
theorem c8_apply_row_selection (e : FilterExpr) (df : DataFrame) (msk : Mask)
    (h : evaluate e df = .ok msk) :
    applyFilter e df = .ok (dfFilterRows df msk) ∧
    (dfFilterRows df msk).map Prod.fst = df.map Prod.fst ∧
    (∀ (α : Type) (vals : List α), List.Sublist (maskFilter msk vals) vals) ∧
    (∀ (α : Type) (vals : List α),
      maskFilter msk vals = (List.range (min msk.length vals.length)).filterMap
        (fun i => if msk[i]? = some (some true) then vals[i]? else none)) ∧
    (∀ (α : Type) (vals : List α), vals.length = msk.length →
      (maskFilter msk vals).length = msk.countP (fun x => x == some true)) := by
  refine ⟨?_, ?_, fun α vals => maskFilter_sublist msk vals,
    fun α vals => maskFilter_spec msk vals,
    fun α vals hl => maskFilter_length msk vals hl⟩
  · simp [applyFilter, h, Except.map]
  · simp [dfFilterRows, List.map_map, Function.comp]

/-- Witness for C8: a contains comparison over a string column with a
true, a false and a null mask slot. -/
theorem c8_apply_row_selection_witness :
    evaluate (.comparison ['a'] .contains ['x'])
        [(['a'], Column.str [some ['x'], some ['y'], none])] =
      .ok [some true, some false, none] ∧
    applyFilter (.comparison ['a'] .contains ['x'])
        [(['a'], Column.str [some ['x'], some ['y'], none])] =
      .ok (dfFilterRows [(['a'], Column.str [some ['x'], some ['y'], none])]
        [some true, some false, none]) :=
  ⟨by decide, (c8_apply_row_selection _ _ _ (by decide)).1⟩

theorem korb_comm : ∀ a b : Option Bool, korb a b = korb b a := by decide

theorem kandb_comm : ∀ a b : Option Bool, kandb a b = kandb b a := by decide

/-- C9.  When both subexpressions evaluate successfully on a table, the
masks of `Or(E1, E2)` and `Or(E2, E1)` coincide, and likewise for `And`:
the Kleene OR/AND kernels are commutative slot by slot. -/
theorem c9_mask_commutativity (e1 e2 : FilterExpr) (df : DataFrame)
    (m1 m2 : Mask)
    (h1 : evaluate e1 df = .ok m1) (h2 : evaluate e2 df = .ok m2) :
    evaluate (.or e1 e2) df = evaluate (.or e2 e1) df ∧
    evaluate (.and e1 e2) df = evaluate (.and e2 e1) df := by
  constructor
  · rw [evaluate_or_ok h1 h2, evaluate_or_ok h2 h1,
      show korM m1 m2 = korM m2 m1 from
        List.zipWith_comm_of_comm korb korb_comm m1 m2]
  · rw [evaluate_and_ok h1 h2, evaluate_and_ok h2 h1,
      show kandM m1 m2 = kandM m2 m1 from
        List.zipWith_comm_of_comm kandb kandb_comm m1 m2]

/-- Witness for C9: two comparisons over the same two-column frame, one
mask containing a null slot. -/
theorem c9_mask_commutativity_witness :
    (evaluate (.comparison ['a'] .contains ['x'])
        [(['a'], Column.str [some ['x'], none]),
         (['b'], Column.i64 [some 1, some 2])] = .ok [some true, none] ∧
      evaluate (.comparison ['b'] .greaterThan ['1'])
        [(['a'], Column.str [some ['x'], none]),
         (['b'], Column.i64 [some 1, some 2])] = .ok [some false, some true]) ∧
    (evaluate (.or (.comparison ['a'] .contains ['x'])
                   (.comparison ['b'] .greaterThan ['1']))
        [(['a'], Column.str [some ['x'], none]),
         (['b'], Column.i64 [some 1, some 2])] =
      evaluate (.or (.comparison ['b'] .greaterThan ['1'])
                    (.comparison ['a'] .contains ['x']))
        [(['a'], Column.str [some ['x'], none]),
         (['b'], Column.i64 [some 1, some 2])] ∧
    evaluate (.and (.comparison ['a'] .contains ['x'])
                   (.comparison ['b'] .greaterThan ['1']))
        [(['a'], Column.str [some ['x'], none]),
         (['b'], Column.i64 [some 1, some 2])] =
      evaluate (.and (.comparison ['b'] .greaterThan ['1'])
                     (.comparison ['a'] .contains ['x']))
        [(['a'], Column.str [some ['x'], none]),
         (['b'], Column.i64 [some 1, some 2])]) :=
  ⟨⟨by decide, by decide⟩,
    c9_mask_commutativity _ _ _ [some true, none] [some false, some true]
      (by decide) (by decide)⟩

/-! Concrete sanity checks of the embedding, matching the scenario
examples of the specification. -/

example : parse (cs "a = 1") =
    .ok (.comparison ['a'] .equal ['1']) := by decide

example : parse (cs "a = 1 OR b = 2") =
    .ok (.or (.comparison ['a'] .equal ['1'])
             (.comparison ['b'] .equal ['2'])) := by decide

example : parse (cs "NOT x:y") =
    .ok (.not (.comparison ['x'] .contains ['y'])) := by decide

example : parse (cs "hello") = .ok (.comparison ['*'] .contains (cs "hello")) := by
  decide

example : parse (cs "  ") = .err .emptyExpression := by decide

example : evaluate (.comparison (cs "Price") .greaterThan (cs "5000"))
    [(cs "Price", .f64 [some (.finite 100), some (.finite 6000), some (.finite 5000)])] =
    .ok [some false, some true, some false] := by decide

example : dsFilter [(cs "Status", .str [some (cs "Closed"), some (cs "Open")])]
    (cs "NOT Status = Closed") =
    .ok [(cs "Status", .str [some (cs "Open")])] := by decide
